import Mathlib

/-!
# Verification of the price-margin affordability solver

Shallow embedding of `src/src/MarginSimulator.ts`. JavaScript numbers are
modelled as exact rationals (`ℚ`); every quantity the solver probes is an
integer (it arises from `Math.floor` or from adding 1), so quantity-dependent
pricing functions are embedded as `ℤ → ℚ`. The refinement loops of
`calculateNumberOfSellableItems` carry no bound in the source, so they are
embedded with an explicit fuel parameter: a result of `none` means the loop
has not terminated within the given fuel (and a result that is `none` for
every fuel means the loop never terminates).
-/

namespace PriceMarginSimulator

/-- A configuration field that is either a plain number or a function of the
item count (`number | ((numberOfItems: number) => number)` in the source). -/
inductive NumOrFn where
  | num (v : ℚ)
  | fn (f : ℤ → ℚ)

/-- Evaluate a `NumOrFn` at an item count (the `typeof === 'function'`
dispatch in the source). -/
def NumOrFn.eval : NumOrFn → ℤ → ℚ
  | .num v, _ => v
  | .fn f, n => f n

/-- `ClientConfig` of the source: budget in dollars and an optional price the
client is willing to pay per item. -/
structure ClientConfig where
  budget : ℚ
  buysAtPricePerItem : Option NumOrFn

/-- `PurchaserConfig` of the source: price per item in euros and an optional
desired margin. -/
structure PurchaserConfig where
  pricePerItem : NumOrFn
  desiredMargin : Option NumOrFn

/-- The `pays` field of `TransportConfig`: `'client' | 'purchaser'`. -/
inductive Payer where
  | client
  | purchaser
deriving DecidableEq

/-- `TransportConfig` of the source. -/
structure TransportConfig where
  costFn : ℤ → ℚ
  pays : Payer

/-- `MarginSimulatorConfig` of the source. -/
structure MarginSimulatorConfig where
  client : ClientConfig
  purchaser : PurchaserConfig
  transport : TransportConfig

/-- The constant `DOLLAR_EUR_MARGIN = 0.88` of the source. -/
def DOLLAR_EUR_MARGIN : ℚ := 0.88

/-- `getPurchasePrice`: purchase price per item in euros. -/
def getPurchasePrice (cfg : MarginSimulatorConfig) (itemCount : ℤ) : ℚ :=
  cfg.purchaser.pricePerItem.eval itemCount

/-- `getClientBuyPrice`: the client's buying price per item in dollars, or
`none` when not specified. The source tests `!client.buysAtPricePerItem`,
which is also true for the number `0`, so a constant `0` price behaves as
absent. -/
def getClientBuyPrice (cfg : MarginSimulatorConfig) (itemCount : ℤ) : Option ℚ :=
  match cfg.client.buysAtPricePerItem with
  | none => none
  | some (NumOrFn.num v) => if v = 0 then none else some v
  | some (NumOrFn.fn f) => some (f itemCount)

/-- `getDesiredMargin`: the desired margin, falling back to a margin derived
from the client's buy price, and finally to the constant `0.2`. -/
def getDesiredMargin (cfg : MarginSimulatorConfig) (itemCount : ℤ) : ℚ :=
  match cfg.purchaser.desiredMargin with
  | some m => m.eval itemCount
  | none =>
    match getClientBuyPrice cfg itemCount with
    | some clientBuyPrice =>
      1 - getPurchasePrice cfg itemCount / (clientBuyPrice * DOLLAR_EUR_MARGIN)
    | none => 0.2

/-- `calculateMarginPercentage`: public wrapper around `getDesiredMargin`. -/
def calculateMarginPercentage (cfg : MarginSimulatorConfig) (itemCount : ℤ) : ℚ :=
  getDesiredMargin cfg itemCount

/-- `getPricePerItem` (legacy alias of `getPurchasePrice`). -/
def getPricePerItem (cfg : MarginSimulatorConfig) (itemCount : ℤ) : ℚ :=
  getPurchasePrice cfg itemCount

/-- `getSellPricePerItem`: sell price per item in euros, from the client's
buy price when given, otherwise from purchase price and margin. -/
def getSellPricePerItem (cfg : MarginSimulatorConfig) (itemCount : ℤ) : ℚ :=
  match getClientBuyPrice cfg itemCount with
  | some clientBuyPrice => clientBuyPrice * DOLLAR_EUR_MARGIN
  | none =>
    getPurchasePrice cfg itemCount / (1 - getDesiredMargin cfg itemCount)

/-- The `'client'`-pays refinement loop of `calculateNumberOfSellableItems`:
`while (estimatedItems !== previousEstimate && estimatedItems > 0)` with the
shrink / grow-by-one / break body, abstracted over the sell-price function
`S` and the transport-cost function `T`, with explicit fuel. -/
def clientLoop (S T : ℤ → ℚ) (B : ℚ) : ℕ → ℤ → ℤ → Option ℤ
  | 0, prev, est =>
    if est = prev ∨ est ≤ 0 then some est else none
  | fuel + 1, prev, est =>
    if est = prev ∨ est ≤ 0 then some est
    else
      if B < S est * (est : ℚ) + T est then
        clientLoop S T B fuel est ⌊(est : ℚ) * (B / (S est * (est : ℚ) + T est))⌋
      else
        if S est * (est : ℚ) + T est + (S (est + 1) + (T (est + 1) - T est)) ≤ B then
          clientLoop S T B fuel est (est + 1)
        else
          some est

/-- The `'purchaser'`-pays refinement loop of
`calculateNumberOfSellableItems`: `while (estimatedItems !== previousEstimate)`
with total cost `sellPrice(est) * est` only. -/
def purchaserLoop (S : ℤ → ℚ) (B : ℚ) : ℕ → ℤ → ℤ → Option ℤ
  | 0, prev, est =>
    if est = prev then some est else none
  | fuel + 1, prev, est =>
    if est = prev then some est
    else
      if B < S est * (est : ℚ) then
        purchaserLoop S B fuel est ⌊(est : ℚ) * (B / (S est * (est : ℚ)))⌋
      else
        if S est * (est : ℚ) + S (est + 1) ≤ B then
          purchaserLoop S B fuel est (est + 1)
        else
          some est

/-- `calculateNumberOfSellableItems`: converts the budget to euros and runs
the refinement loop of the configured payer policy. In the `'client'` branch
the initial estimate is `⌊budget_eur / sellPrice(1)⌋` with `previousEstimate
= 0`; in the `'purchaser'` branch it starts at `1` with `previousEstimate =
0`. -/
def calculateNumberOfSellableItems (cfg : MarginSimulatorConfig) (fuel : ℕ) : Option ℤ :=
  let clientBudgetInEuros := cfg.client.budget * DOLLAR_EUR_MARGIN
  match cfg.transport.pays with
  | .client =>
    clientLoop (getSellPricePerItem cfg) cfg.transport.costFn clientBudgetInEuros fuel 0
      ⌊clientBudgetInEuros / getSellPricePerItem cfg 1⌋
  | .purchaser =>
    purchaserLoop (getSellPricePerItem cfg) clientBudgetInEuros fuel 0 1

/-- `calculateTotalCostPerItem`: blended cost per item in dollars, `0` when
the solved item count is `0`. `none` propagates non-termination of the
solver. -/
def calculateTotalCostPerItem (cfg : MarginSimulatorConfig) (fuel : ℕ) : Option ℚ :=
  (calculateNumberOfSellableItems cfg fuel).map fun itemCount =>
    if itemCount = 0 then 0
    else
      (getSellPricePerItem cfg itemCount +
        (if cfg.transport.pays = .client then cfg.transport.costFn itemCount else 0) /
          (itemCount : ℚ)) / DOLLAR_EUR_MARGIN

/-! ## Small-step characterization of the loops -/

theorem clientLoop_exit (S T : ℤ → ℚ) (B : ℚ) (prev est : ℤ)
    (h : est = prev ∨ est ≤ 0) : ∀ fuel, clientLoop S T B fuel prev est = some est := by
  intro fuel
  cases fuel with
  | zero => simp [clientLoop, h]
  | succ n => simp [clientLoop, h]

theorem clientLoop_step_shrink (S T : ℤ → ℚ) (B : ℚ) (fuel : ℕ) (prev est e2 : ℤ)
    (h1 : ¬(est = prev ∨ est ≤ 0))
    (h2 : B < S est * (est : ℚ) + T est)
    (h3 : ⌊(est : ℚ) * (B / (S est * (est : ℚ) + T est))⌋ = e2) :
    clientLoop S T B (fuel + 1) prev est = clientLoop S T B fuel est e2 := by
  rw [clientLoop, if_neg h1, if_pos h2, h3]

theorem clientLoop_step_grow (S T : ℤ → ℚ) (B : ℚ) (fuel : ℕ) (prev est : ℤ)
    (h1 : ¬(est = prev ∨ est ≤ 0))
    (h2 : ¬ B < S est * (est : ℚ) + T est)
    (h3 : S est * (est : ℚ) + T est + (S (est + 1) + (T (est + 1) - T est)) ≤ B) :
    clientLoop S T B (fuel + 1) prev est = clientLoop S T B fuel est (est + 1) := by
  rw [clientLoop, if_neg h1, if_neg h2, if_pos h3]

theorem clientLoop_step_break (S T : ℤ → ℚ) (B : ℚ) (fuel : ℕ) (prev est : ℤ)
    (h1 : ¬(est = prev ∨ est ≤ 0))
    (h2 : ¬ B < S est * (est : ℚ) + T est)
    (h3 : ¬ (S est * (est : ℚ) + T est + (S (est + 1) + (T (est + 1) - T est)) ≤ B)) :
    clientLoop S T B (fuel + 1) prev est = some est := by
  rw [clientLoop, if_neg h1, if_neg h2, if_neg h3]

theorem purchaserLoop_exit (S : ℤ → ℚ) (B : ℚ) (prev est : ℤ)
    (h : est = prev) : ∀ fuel, purchaserLoop S B fuel prev est = some est := by
  intro fuel
  cases fuel with
  | zero => simp [purchaserLoop, h]
  | succ n => simp [purchaserLoop, h]

theorem purchaserLoop_step_shrink (S : ℤ → ℚ) (B : ℚ) (fuel : ℕ) (prev est e2 : ℤ)
    (h1 : ¬ est = prev)
    (h2 : B < S est * (est : ℚ))
    (h3 : ⌊(est : ℚ) * (B / (S est * (est : ℚ)))⌋ = e2) :
    purchaserLoop S B (fuel + 1) prev est = purchaserLoop S B fuel est e2 := by
  rw [purchaserLoop, if_neg h1, if_pos h2, h3]

theorem purchaserLoop_step_grow (S : ℤ → ℚ) (B : ℚ) (fuel : ℕ) (prev est : ℤ)
    (h1 : ¬ est = prev)
    (h2 : ¬ B < S est * (est : ℚ))
    (h3 : S est * (est : ℚ) + S (est + 1) ≤ B) :
    purchaserLoop S B (fuel + 1) prev est = purchaserLoop S B fuel est (est + 1) := by
  rw [purchaserLoop, if_neg h1, if_neg h2, if_pos h3]

theorem purchaserLoop_step_break (S : ℤ → ℚ) (B : ℚ) (fuel : ℕ) (prev est : ℤ)
    (h1 : ¬ est = prev)
    (h2 : ¬ B < S est * (est : ℚ))
    (h3 : ¬ (S est * (est : ℚ) + S (est + 1) ≤ B)) :
    purchaserLoop S B (fuel + 1) prev est = some est := by
  rw [purchaserLoop, if_neg h1, if_neg h2, if_neg h3]

/-! ## Arithmetic facts about the proportional shrink step -/

theorem floor_shrink_nonneg (est : ℤ) (B t : ℚ) (hest : 0 ≤ (est : ℚ))
    (hB : 0 ≤ B) (h : B < t) : 0 ≤ ⌊(est : ℚ) * (B / t)⌋ :=
  Int.floor_nonneg.mpr (mul_nonneg hest (div_nonneg hB (lt_of_le_of_lt hB h).le))

theorem floor_shrink_lt (est : ℤ) (B t : ℚ) (hest : 1 ≤ est)
    (hB : 0 ≤ B) (h : B < t) : ⌊(est : ℚ) * (B / t)⌋ < est := by
  have ht : 0 < t := lt_of_le_of_lt hB h
  have hr : B / t < 1 := (div_lt_one ht).mpr h
  have hep : (0 : ℚ) < (est : ℚ) := by exact_mod_cast lt_of_lt_of_le Int.zero_lt_one hest
  refine Int.floor_lt.mpr ?_
  calc (est : ℚ) * (B / t) < (est : ℚ) * 1 := by
        exact mul_lt_mul_of_pos_left hr hep
    _ = (est : ℚ) := mul_one _

theorem floor_shrink_eq_zero_imp (est : ℤ) (B t : ℚ) (hest : 1 ≤ est)
    (hB : 0 ≤ B) (h : B < t) (hz : ⌊(est : ℚ) * (B / t)⌋ = 0) :
    (est : ℚ) * B < t := by
  have ht : 0 < t := lt_of_le_of_lt hB h
  have h1 : (est : ℚ) * (B / t) < 1 := (Int.floor_eq_zero_iff.mp hz).2
  rw [← mul_div_assoc] at h1
  exact (div_lt_one ht).mp h1

/-! ## Partial correctness of the refinement loops

The while-loop state is `(prev, est)`; the entry invariant is `0 ≤ est` and
`est = prev → est = 0` (initially `prev = 0`, and each iteration changes the
estimate, strictly decreasing it on a shrink step). -/

theorem clientLoop_sound (S T : ℤ → ℚ) (B : ℚ) (hB : 0 ≤ B) :
    ∀ fuel prev est r, 0 ≤ est → (est = prev → est = 0) →
      clientLoop S T B fuel prev est = some r →
      0 ≤ r ∧ (1 ≤ r → S r * (r : ℚ) + T r ≤ B) := by
  intro fuel
  induction fuel with
  | zero =>
    intro prev est r h0 hpe hr
    rw [clientLoop] at hr
    by_cases hc : est = prev ∨ est ≤ 0
    · rw [if_pos hc] at hr
      obtain rfl : est = r := Option.some.inj hr
      have h00 : est = 0 := by
        rcases hc with hc | hc
        · exact hpe hc
        · omega
      subst h00
      exact ⟨le_refl 0, fun h => absurd h (by omega)⟩
    · rw [if_neg hc] at hr
      exact absurd hr (by simp)
  | succ n ih =>
    intro prev est r h0 hpe hr
    by_cases hc : est = prev ∨ est ≤ 0
    · rw [clientLoop, if_pos hc] at hr
      obtain rfl : est = r := Option.some.inj hr
      have h00 : est = 0 := by
        rcases hc with hc | hc
        · exact hpe hc
        · omega
      subst h00
      exact ⟨le_refl 0, fun h => absurd h (by omega)⟩
    · rw [clientLoop, if_neg hc] at hr
      push_neg at hc
      have hest1 : 1 ≤ est := by omega
      by_cases hsh : B < S est * (est : ℚ) + T est
      · rw [if_pos hsh] at hr
        have h2lt : ⌊(est : ℚ) * (B / (S est * (est : ℚ) + T est))⌋ < est :=
          floor_shrink_lt est B _ hest1 hB hsh
        have h2nn : 0 ≤ ⌊(est : ℚ) * (B / (S est * (est : ℚ) + T est))⌋ :=
          floor_shrink_nonneg est B _ (by exact_mod_cast h0) hB hsh
        exact ih est _ r h2nn (fun h => absurd h (by omega)) hr
      · rw [if_neg hsh] at hr
        by_cases hgr : S est * (est : ℚ) + T est + (S (est + 1) + (T (est + 1) - T est)) ≤ B
        · rw [if_pos hgr] at hr
          exact ih est (est + 1) r (by omega) (fun h => absurd h (by omega)) hr
        · rw [if_neg hgr] at hr
          obtain rfl : est = r := Option.some.inj hr
          exact ⟨by omega, fun _ => not_lt.mp hsh⟩

theorem clientLoop_sound_const (S T : ℤ → ℚ) (B s c : ℚ)
    (hS : ∀ n, S n = s) (hT : ∀ n, T n = c)
    (hs : 0 < s) (hc0 : 0 ≤ c) (hB : 0 ≤ B) :
    ∀ fuel prev est r, 0 ≤ est → (est = prev → est = 0) → (est = 0 → B < s + c) →
      clientLoop S T B fuel prev est = some r →
      0 ≤ r ∧ (1 ≤ r → s * (r : ℚ) + c ≤ B) ∧ B < s * ((r : ℚ) + 1) + c := by
  intro fuel
  induction fuel with
  | zero =>
    intro prev est r h0 hpe hz hr
    rw [clientLoop] at hr
    by_cases hcond : est = prev ∨ est ≤ 0
    · rw [if_pos hcond] at hr
      obtain rfl : est = r := Option.some.inj hr
      have h00 : est = 0 := by
        rcases hcond with h | h
        · exact hpe h
        · omega
      subst h00
      refine ⟨le_refl 0, fun h => absurd h (by omega), ?_⟩
      have hsc := hz rfl
      push_cast
      linarith
    · rw [if_neg hcond] at hr
      exact absurd hr (by simp)
  | succ n ih =>
    intro prev est r h0 hpe hz hr
    by_cases hcond : est = prev ∨ est ≤ 0
    · rw [clientLoop, if_pos hcond] at hr
      obtain rfl : est = r := Option.some.inj hr
      have h00 : est = 0 := by
        rcases hcond with h | h
        · exact hpe h
        · omega
      subst h00
      refine ⟨le_refl 0, fun h => absurd h (by omega), ?_⟩
      have hsc := hz rfl
      push_cast
      linarith
    · rw [clientLoop, if_neg hcond] at hr
      push_neg at hcond
      have hest1 : 1 ≤ est := by omega
      have heq : (1 : ℚ) ≤ (est : ℚ) := by exact_mod_cast hest1
      by_cases hsh : B < S est * (est : ℚ) + T est
      · rw [if_pos hsh] at hr
        have h2lt : ⌊(est : ℚ) * (B / (S est * (est : ℚ) + T est))⌋ < est :=
          floor_shrink_lt est B _ hest1 hB hsh
        have h2nn : 0 ≤ ⌊(est : ℚ) * (B / (S est * (est : ℚ) + T est))⌋ :=
          floor_shrink_nonneg est B _ (by exact_mod_cast h0) hB hsh
        refine ih est _ r h2nn (fun h => absurd h (by omega)) ?_ hr
        intro h20
        have hmul : (est : ℚ) * B < S est * (est : ℚ) + T est :=
          floor_shrink_eq_zero_imp est B _ hest1 hB hsh h20
        rw [hS, hT] at hmul
        by_contra hcon
        push_neg at hcon
        have h1 : (est : ℚ) * (s + c) ≤ (est : ℚ) * B :=
          mul_le_mul_of_nonneg_left hcon (by linarith)
        have h2 : c ≤ (est : ℚ) * c := le_mul_of_one_le_left hc0 heq
        nlinarith
      · rw [if_neg hsh] at hr
        by_cases hgr : S est * (est : ℚ) + T est + (S (est + 1) + (T (est + 1) - T est)) ≤ B
        · rw [if_pos hgr] at hr
          exact ih est (est + 1) r (by omega) (fun h => absurd h (by omega))
            (fun h => absurd h (by omega)) hr
        · rw [if_neg hgr] at hr
          obtain rfl : est = r := Option.some.inj hr
          simp only [hS, hT] at hsh hgr
          push_neg at hsh hgr
          refine ⟨by omega, fun _ => hsh, ?_⟩
          push_cast
          linarith

theorem purchaserLoop_sound (S : ℤ → ℚ) (B : ℚ) (hB : 0 ≤ B) :
    ∀ fuel prev est r, 0 ≤ est → ¬ est = prev →
      purchaserLoop S B fuel prev est = some r →
      0 ≤ r ∧ S r * (r : ℚ) ≤ B ∧ B < S r * (r : ℚ) + S (r + 1) := by
  intro fuel
  induction fuel with
  | zero =>
    intro prev est r h0 hpe hr
    rw [purchaserLoop, if_neg hpe] at hr
    exact absurd hr (by simp)
  | succ n ih =>
    intro prev est r h0 hpe hr
    rw [purchaserLoop, if_neg hpe] at hr
    by_cases hsh : B < S est * (est : ℚ)
    · rw [if_pos hsh] at hr
      have hest1 : 1 ≤ est := by
        rcases lt_or_eq_of_le h0 with h | h
        · omega
        · exfalso
          rw [← h] at hsh
          push_cast at hsh
          rw [mul_zero] at hsh
          exact absurd hsh (not_lt.mpr hB)
      have h2lt : ⌊(est : ℚ) * (B / (S est * (est : ℚ)))⌋ < est :=
        floor_shrink_lt est B _ hest1 hB hsh
      have h2nn : 0 ≤ ⌊(est : ℚ) * (B / (S est * (est : ℚ)))⌋ :=
        floor_shrink_nonneg est B _ (by exact_mod_cast h0) hB hsh
      exact ih est _ r h2nn (by omega) hr
    · rw [if_neg hsh] at hr
      by_cases hgr : S est * (est : ℚ) + S (est + 1) ≤ B
      · rw [if_pos hgr] at hr
        exact ih est (est + 1) r (by omega) (by omega) hr
      · rw [if_neg hgr] at hr
        obtain rfl : est = r := Option.some.inj hr
        exact ⟨h0, not_lt.mp hsh, not_le.mp hgr⟩

/-! ## Termination traces for particular shapes of input -/

theorem purchaserLoop_const_grow (S : ℤ → ℚ) (B s : ℚ)
    (hS : ∀ n, S n = s) (hs : 0 < s) :
    ∀ n k prev, 1 ≤ k → k ≤ ⌊B / s⌋ → ¬ k = prev → (⌊B / s⌋ - k).toNat + 1 ≤ n →
      purchaserLoop S B n prev k = some ⌊B / s⌋ := by
  intro n
  induction n with
  | zero =>
    intro k prev _ _ _ hf
    omega
  | succ m ih =>
    intro k prev hk1 hkq hkp hf
    have hkB : s * (k : ℚ) ≤ B := by
      have hdiv : (k : ℚ) ≤ B / s := Int.le_floor.mp hkq
      have := (le_div_iff₀ hs).mp hdiv
      linarith [mul_comm (k : ℚ) s]
    by_cases hkq2 : k = ⌊B / s⌋
    · rw [← hkq2]
      refine purchaserLoop_step_break S B m prev k hkp ?_ ?_
      · rw [hS]
        exact not_lt.mpr hkB
      · simp only [hS]
        intro hcon
        have hk2 : ((k : ℚ) + 1) ≤ B / s := by
          rw [le_div_iff₀ hs]
          linarith
        have : k + 1 ≤ ⌊B / s⌋ := Int.le_floor.mpr (by push_cast; linarith)
        omega
    · have hklt : k < ⌊B / s⌋ := lt_of_le_of_ne hkq hkq2
      rw [purchaserLoop_step_grow S B m prev k hkp ?_ ?_]
      · exact ih (k + 1) k (by omega) (by omega) (by omega) (by omega)
      · rw [hS]
        exact not_lt.mpr hkB
      · simp only [hS]
        have hk2 : ((k : ℚ) + 1) ≤ B / s := by
          have : k + 1 ≤ ⌊B / s⌋ := by omega
          exact_mod_cast Int.le_floor.mp this
        have := (le_div_iff₀ hs).mp hk2
        nlinarith

theorem purchaserLoop_const_run (S : ℤ → ℚ) (B s : ℚ)
    (hS : ∀ n, S n = s) (hs : 0 < s) (hB : 0 ≤ B) :
    ∀ fuel, ⌊B / s⌋.toNat + 2 ≤ fuel → purchaserLoop S B fuel 0 1 = some ⌊B / s⌋ := by
  intro fuel hf
  by_cases hsB : s ≤ B
  · have hq1 : 1 ≤ ⌊B / s⌋ := by
      rw [Int.le_floor]
      push_cast
      rw [le_div_iff₀ hs]
      linarith
    exact purchaserLoop_const_grow S B s hS hs fuel 1 0 (le_refl 1) hq1 (by omega) (by omega)
  · push_neg at hsB
    have hq0 : ⌊B / s⌋ = 0 := by
      rw [Int.floor_eq_zero_iff]
      exact Set.mem_Ico.mpr ⟨div_nonneg hB hs.le, (div_lt_one hs).mpr hsB⟩
    rw [hq0]
    obtain ⟨m, rfl⟩ : ∃ m, fuel = m + 2 := ⟨fuel - 2, by omega⟩
    rw [purchaserLoop_step_shrink S B (m + 1) 0 1 0 (by omega) ?_ ?_]
    · refine purchaserLoop_step_break S B m 1 0 (by omega) ?_ ?_
      · simp only [hS, Int.cast_zero, mul_zero]
        exact not_lt.mpr hB
      · simp only [hS, Int.cast_zero, mul_zero, zero_add]
        exact not_le.mpr hsB
    · simp only [hS, Int.cast_one, mul_one]
      exact hsB
    · simp only [hS, Int.cast_one, mul_one, one_mul]
      exact hq0

theorem clientLoop_shrinkAll (S T : ℤ → ℚ) (B : ℚ)
    (h : ∀ n : ℤ, 1 ≤ n → B < S n * (n : ℚ) + T n) (hB : 0 ≤ B) :
    ∀ fuel prev est, 0 ≤ est → (est = prev → est = 0) → est.toNat < fuel →
      clientLoop S T B fuel prev est = some 0 := by
  intro fuel
  induction fuel with
  | zero =>
    intro prev est _ _ hf
    omega
  | succ m ih =>
    intro prev est h0 hpe hf
    by_cases hz : est = 0
    · subst hz
      exact clientLoop_exit S T B prev 0 (Or.inr (le_refl 0)) (m + 1)
    · have hest1 : 1 ≤ est := by omega
      have hne : ¬ (est = prev ∨ est ≤ 0) := by
        push_neg
        exact ⟨fun hep => hz (hpe hep), by omega⟩
      have hsh := h est hest1
      rw [clientLoop_step_shrink S T B m prev est _ hne hsh rfl]
      have hlt := floor_shrink_lt est B _ hest1 hB hsh
      have hnn := floor_shrink_nonneg est B _ (by exact_mod_cast h0) hB hsh
      exact ih est _ hnn (fun hh => absurd hh (by omega)) (by omega)

/-! ## Unfolding the solver per payer policy -/

theorem solve_client_eq (cfg : MarginSimulatorConfig) (fuel : ℕ)
    (h : cfg.transport.pays = .client) :
    calculateNumberOfSellableItems cfg fuel =
      clientLoop (getSellPricePerItem cfg) cfg.transport.costFn
        (cfg.client.budget * DOLLAR_EUR_MARGIN) fuel 0
        ⌊cfg.client.budget * DOLLAR_EUR_MARGIN / getSellPricePerItem cfg 1⌋ := by
  simp only [calculateNumberOfSellableItems, h]

theorem solve_purchaser_eq (cfg : MarginSimulatorConfig) (fuel : ℕ)
    (h : cfg.transport.pays = .purchaser) :
    calculateNumberOfSellableItems cfg fuel =
      purchaserLoop (getSellPricePerItem cfg)
        (cfg.client.budget * DOLLAR_EUR_MARGIN) fuel 0 1 := by
  simp only [calculateNumberOfSellableItems, h]

theorem getSellPricePerItem_const (cfg : MarginSimulatorConfig) (p m : ℚ)
    (hp : cfg.purchaser.pricePerItem = .num p)
    (hm : cfg.purchaser.desiredMargin = some (.num m))
    (hb : cfg.client.buysAtPricePerItem = none) :
    ∀ n, getSellPricePerItem cfg n = p / (1 - m) := by
  intro n
  simp [getSellPricePerItem, getClientBuyPrice, hb, getDesiredMargin, hm,
    getPurchasePrice, hp, NumOrFn.eval]

theorem budget_eur_nonneg (cfg : MarginSimulatorConfig)
    (hbud : 0 ≤ cfg.client.budget) :
    0 ≤ cfg.client.budget * DOLLAR_EUR_MARGIN := by
  have hdm : (0 : ℚ) ≤ DOLLAR_EUR_MARGIN := by norm_num [DOLLAR_EUR_MARGIN]
  exact mul_nonneg hbud hdm

/-! ## Claim theorems -/

/-- C1 (amended): for quantity-independent unit price, margin and transport
cost — with, under the `'client'` payer policy, transport cost not exceeding
the converted budget — any item count returned by
`calculateNumberOfSellableItems` satisfies the budget constraint maximally:
the total cost at the returned count (sell price times count, plus transport
when the client pays it) is at most `budget * 0.88`, and the total cost at
the returned count plus one strictly exceeds `budget * 0.88`. -/
theorem c1_budget_respect_constant (cfg : MarginSimulatorConfig) (p m c : ℚ)
    (fuel : ℕ) (r : ℤ)
    (hp : cfg.purchaser.pricePerItem = .num p)
    (hm : cfg.purchaser.desiredMargin = some (.num m))
    (hb : cfg.client.buysAtPricePerItem = none)
    (ht : ∀ n, cfg.transport.costFn n = c)
    (hbud : 0 ≤ cfg.client.budget)
    (hp0 : 0 < p) (hm1 : m < 1) (hc0 : 0 ≤ c)
    (hcB : cfg.transport.pays = .client → c ≤ cfg.client.budget * DOLLAR_EUR_MARGIN)
    (hr : calculateNumberOfSellableItems cfg fuel = some r) :
    getSellPricePerItem cfg r * (r : ℚ) +
        (if cfg.transport.pays = .client then cfg.transport.costFn r else 0) ≤
      cfg.client.budget * DOLLAR_EUR_MARGIN ∧
    cfg.client.budget * DOLLAR_EUR_MARGIN <
      getSellPricePerItem cfg (r + 1) * ((r : ℚ) + 1) +
        (if cfg.transport.pays = .client then cfg.transport.costFn (r + 1) else 0) := by
  have hS := getSellPricePerItem_const cfg p m hp hm hb
  set s := p / (1 - m) with hsdef
  have hs : 0 < s := div_pos hp0 (by linarith)
  have hB : 0 ≤ cfg.client.budget * DOLLAR_EUR_MARGIN := budget_eur_nonneg cfg hbud
  cases hpays : cfg.transport.pays with
  | client =>
    rw [solve_client_eq cfg fuel hpays, hS 1] at hr
    have hseed0 : 0 ≤ ⌊cfg.client.budget * DOLLAR_EUR_MARGIN / s⌋ :=
      Int.floor_nonneg.mpr (div_nonneg hB hs.le)
    have hsz : ⌊cfg.client.budget * DOLLAR_EUR_MARGIN / s⌋ = 0 →
        cfg.client.budget * DOLLAR_EUR_MARGIN < s + c := by
      intro h0
      have hlt := (Int.floor_eq_zero_iff.mp h0).2
      have hBs : cfg.client.budget * DOLLAR_EUR_MARGIN < s := (div_lt_one hs).mp hlt
      linarith
    obtain ⟨hr0, hr1, hr2⟩ := clientLoop_sound_const (getSellPricePerItem cfg)
      cfg.transport.costFn _ s c hS ht hs hc0 hB fuel 0 _ r hseed0 (fun h => h) hsz hr
    rw [hS r, hS (r + 1), ht r, ht (r + 1)]
    simp only [if_pos rfl]
    refine ⟨?_, by push_cast; linarith⟩
    rcases (by omega : r = 0 ∨ 1 ≤ r) with h | h
    · rw [h]
      push_cast
      rw [mul_zero, zero_add]
      exact hcB hpays
    · exact hr1 h
  | purchaser =>
    rw [solve_purchaser_eq cfg fuel hpays] at hr
    obtain ⟨hr0, hr1, hr2⟩ := purchaserLoop_sound (getSellPricePerItem cfg) _ hB
      fuel 0 1 r (by omega) (by omega) hr
    simp only [hS] at hr1 hr2 ⊢
    have hne : ¬ (Payer.purchaser = Payer.client) := by decide
    simp only [if_neg hne, add_zero]
    refine ⟨hr1, ?_⟩
    have hexp : s * ((r : ℚ) + 1) = s * (r : ℚ) + s := by ring
    rw [hexp]
    linarith

/-- C4: for quantity-independent constant price, margin and transport cost
under the `'purchaser'` payer policy, every returned count equals
`⌊budget * 0.88 / (price / (1 - margin))⌋`, and the solver does return that
value (with fuel at least that floor plus two). -/
theorem c4_constant_closed_form (cfg : MarginSimulatorConfig) (p m c : ℚ)
    (fuel : ℕ) (r : ℤ)
    (hp : cfg.purchaser.pricePerItem = .num p)
    (hm : cfg.purchaser.desiredMargin = some (.num m))
    (hb : cfg.client.buysAtPricePerItem = none)
    (ht : ∀ n, cfg.transport.costFn n = c)
    (hpays : cfg.transport.pays = .purchaser)
    (hbud : 0 ≤ cfg.client.budget)
    (hp0 : 0 < p) (hm1 : m < 1)
    (hr : calculateNumberOfSellableItems cfg fuel = some r) :
    r = ⌊cfg.client.budget * DOLLAR_EUR_MARGIN / (p / (1 - m))⌋ ∧
    calculateNumberOfSellableItems cfg
        (⌊cfg.client.budget * DOLLAR_EUR_MARGIN / (p / (1 - m))⌋.toNat + 2) =
      some ⌊cfg.client.budget * DOLLAR_EUR_MARGIN / (p / (1 - m))⌋ := by
  have hS := getSellPricePerItem_const cfg p m hp hm hb
  set s := p / (1 - m) with hsdef
  have hs : 0 < s := div_pos hp0 (by linarith)
  have hB : 0 ≤ cfg.client.budget * DOLLAR_EUR_MARGIN := budget_eur_nonneg cfg hbud
  constructor
  · rw [solve_purchaser_eq cfg fuel hpays] at hr
    obtain ⟨hr0, hr1, hr2⟩ := purchaserLoop_sound (getSellPricePerItem cfg) _ hB
      fuel 0 1 r (by omega) (by omega) hr
    rw [hS r] at hr1
    rw [hS r, hS (r + 1)] at hr2
    symm
    rw [Int.floor_eq_iff]
    constructor
    · rw [le_div_iff₀ hs]
      linarith [mul_comm (r : ℚ) s]
    · rw [div_lt_iff₀ hs]
      push_cast
      nlinarith
  · rw [solve_purchaser_eq cfg _ hpays]
    exact purchaserLoop_const_run (getSellPricePerItem cfg) _ s hS hs hB _ (by omega)

/-- C5 (amended): for quantity-independent constant price, margin and
transport cost and a common payer policy, the returned item count is
monotone in the client budget: a configuration with a smaller budget never
returns a larger count. -/
theorem c5_budget_monotone_constant (cfg1 cfg2 : MarginSimulatorConfig)
    (p m c : ℚ) (fuel1 fuel2 : ℕ) (r1 r2 : ℤ)
    (hp1 : cfg1.purchaser.pricePerItem = .num p)
    (hm1c : cfg1.purchaser.desiredMargin = some (.num m))
    (hb1 : cfg1.client.buysAtPricePerItem = none)
    (ht1 : ∀ n, cfg1.transport.costFn n = c)
    (hp2 : cfg2.purchaser.pricePerItem = .num p)
    (hm2c : cfg2.purchaser.desiredMargin = some (.num m))
    (hb2 : cfg2.client.buysAtPricePerItem = none)
    (ht2 : ∀ n, cfg2.transport.costFn n = c)
    (hpays : cfg1.transport.pays = cfg2.transport.pays)
    (hbud1 : 0 ≤ cfg1.client.budget)
    (hble : cfg1.client.budget ≤ cfg2.client.budget)
    (hp0 : 0 < p) (hm1 : m < 1) (hc0 : 0 ≤ c)
    (hr1 : calculateNumberOfSellableItems cfg1 fuel1 = some r1)
    (hr2 : calculateNumberOfSellableItems cfg2 fuel2 = some r2) :
    r1 ≤ r2 := by
  have hS1 := getSellPricePerItem_const cfg1 p m hp1 hm1c hb1
  have hS2 := getSellPricePerItem_const cfg2 p m hp2 hm2c hb2
  set s := p / (1 - m) with hsdef
  have hs : 0 < s := div_pos hp0 (by linarith)
  have hbud2 : 0 ≤ cfg2.client.budget := le_trans hbud1 hble
  have hB1 : 0 ≤ cfg1.client.budget * DOLLAR_EUR_MARGIN := budget_eur_nonneg cfg1 hbud1
  have hB2 : 0 ≤ cfg2.client.budget * DOLLAR_EUR_MARGIN := budget_eur_nonneg cfg2 hbud2
  have hBle : cfg1.client.budget * DOLLAR_EUR_MARGIN ≤
      cfg2.client.budget * DOLLAR_EUR_MARGIN := by
    have hdm : (0 : ℚ) ≤ DOLLAR_EUR_MARGIN := by norm_num [DOLLAR_EUR_MARGIN]
    exact mul_le_mul_of_nonneg_right hble hdm
  cases hpc : cfg1.transport.pays with
  | client =>
    have hpc2 : cfg2.transport.pays = .client := hpays ▸ hpc
    rw [solve_client_eq cfg1 fuel1 hpc, hS1 1] at hr1
    rw [solve_client_eq cfg2 fuel2 hpc2, hS2 1] at hr2
    have hseed1 : 0 ≤ ⌊cfg1.client.budget * DOLLAR_EUR_MARGIN / s⌋ :=
      Int.floor_nonneg.mpr (div_nonneg hB1 hs.le)
    have hseed2 : 0 ≤ ⌊cfg2.client.budget * DOLLAR_EUR_MARGIN / s⌋ :=
      Int.floor_nonneg.mpr (div_nonneg hB2 hs.le)
    have hsz1 : ⌊cfg1.client.budget * DOLLAR_EUR_MARGIN / s⌋ = 0 →
        cfg1.client.budget * DOLLAR_EUR_MARGIN < s + c := by
      intro h0
      have hBs := (div_lt_one hs).mp (Int.floor_eq_zero_iff.mp h0).2
      linarith
    have hsz2 : ⌊cfg2.client.budget * DOLLAR_EUR_MARGIN / s⌋ = 0 →
        cfg2.client.budget * DOLLAR_EUR_MARGIN < s + c := by
      intro h0
      have hBs := (div_lt_one hs).mp (Int.floor_eq_zero_iff.mp h0).2
      linarith
    obtain ⟨h10, h11, h12⟩ := clientLoop_sound_const (getSellPricePerItem cfg1)
      cfg1.transport.costFn _ s c hS1 ht1 hs hc0 hB1 fuel1 0 _ r1 hseed1 (fun h => h) hsz1 hr1
    obtain ⟨h20, h21, h22⟩ := clientLoop_sound_const (getSellPricePerItem cfg2)
      cfg2.transport.costFn _ s c hS2 ht2 hs hc0 hB2 fuel2 0 _ r2 hseed2 (fun h => h) hsz2 hr2
    rcases (by omega : r1 ≤ 0 ∨ 1 ≤ r1) with h | h
    · omega
    · have hchain : s * (r1 : ℚ) < s * ((r2 : ℚ) + 1) := by linarith [h11 h]
      have hcast : (r1 : ℚ) < (r2 : ℚ) + 1 := (mul_lt_mul_left hs).mp hchain
      have : r1 < r2 + 1 := by exact_mod_cast hcast
      omega
  | purchaser =>
    have hpc2 : cfg2.transport.pays = .purchaser := hpays ▸ hpc
    rw [solve_purchaser_eq cfg1 fuel1 hpc] at hr1
    rw [solve_purchaser_eq cfg2 fuel2 hpc2] at hr2
    obtain ⟨h10, h11, h12⟩ := purchaserLoop_sound (getSellPricePerItem cfg1) _ hB1
      fuel1 0 1 r1 (by omega) (by omega) hr1
    obtain ⟨h20, h21, h22⟩ := purchaserLoop_sound (getSellPricePerItem cfg2) _ hB2
      fuel2 0 1 r2 (by omega) (by omega) hr2
    rw [hS1 r1] at h11
    rw [hS2 r2, hS2 (r2 + 1)] at h22
    have hchain : s * (r1 : ℚ) < s * ((r2 : ℚ) + 1) := by
      have hexp : s * ((r2 : ℚ) + 1) = s * (r2 : ℚ) + s := by ring
      rw [hexp]
      linarith
    have hcast : (r1 : ℚ) < (r2 : ℚ) + 1 := (mul_lt_mul_left hs).mp hchain
    have : r1 < r2 + 1 := by exact_mod_cast hcast
    omega

/-- C6 (amended): when the converted budget is below the single-unit
affordability floor — `sellPrice(1)` under `'purchaser'` pays,
`sellPrice(1) + transportCost(1)` under `'client'` pays, where for the
client policy the sell price and transport cost at every positive quantity
are additionally assumed to be at least their single-unit values —
`calculateNumberOfSellableItems` returns exactly `0` (given enough fuel;
in particular for `budget = 0`). -/
theorem c6_below_floor_zero (cfg : MarginSimulatorConfig) (fuel : ℕ)
    (hbud : 0 ≤ cfg.client.budget)
    (hs1 : 0 < getSellPricePerItem cfg 1)
    (hpu : cfg.transport.pays = .purchaser →
      cfg.client.budget * DOLLAR_EUR_MARGIN < getSellPricePerItem cfg 1)
    (hcl : cfg.transport.pays = .client →
      (cfg.client.budget * DOLLAR_EUR_MARGIN <
        getSellPricePerItem cfg 1 + cfg.transport.costFn 1) ∧
      ∀ n : ℤ, 1 ≤ n → getSellPricePerItem cfg 1 ≤ getSellPricePerItem cfg n ∧
        cfg.transport.costFn 1 ≤ cfg.transport.costFn n)
    (hfuel : ⌊cfg.client.budget * DOLLAR_EUR_MARGIN /
        getSellPricePerItem cfg 1⌋.toNat + 2 ≤ fuel) :
    calculateNumberOfSellableItems cfg fuel = some 0 := by
  have hB : 0 ≤ cfg.client.budget * DOLLAR_EUR_MARGIN := budget_eur_nonneg cfg hbud
  cases hpays : cfg.transport.pays with
  | client =>
    obtain ⟨hfloor, hmono⟩ := hcl hpays
    rw [solve_client_eq cfg fuel hpays]
    refine clientLoop_shrinkAll (getSellPricePerItem cfg) cfg.transport.costFn _
      ?_ hB fuel 0 _ ?_ (fun h => h) ?_
    · intro n hn
      obtain ⟨hSn, hTn⟩ := hmono n hn
      have hn0 : (0 : ℚ) ≤ (n : ℚ) := by exact_mod_cast le_trans Int.one_nonneg hn
      have hn1 : (1 : ℚ) ≤ (n : ℚ) := by exact_mod_cast hn
      have h1 : getSellPricePerItem cfg 1 * (n : ℚ) ≤ getSellPricePerItem cfg n * (n : ℚ) :=
        mul_le_mul_of_nonneg_right hSn hn0
      have h2 : getSellPricePerItem cfg 1 * 1 ≤ getSellPricePerItem cfg 1 * (n : ℚ) :=
        mul_le_mul_of_nonneg_left hn1 hs1.le
      rw [mul_one] at h2
      linarith
    · exact Int.floor_nonneg.mpr (div_nonneg hB hs1.le)
    · omega
  | purchaser =>
    have hBlt := hpu hpays
    rw [solve_purchaser_eq cfg fuel hpays]
    obtain ⟨mm, rfl⟩ : ∃ mm, fuel = mm + 2 := ⟨fuel - 2, by omega⟩
    rw [purchaserLoop_step_shrink (getSellPricePerItem cfg) _ (mm + 1) 0 1 0
      (by omega) ?_ ?_]
    · refine purchaserLoop_step_break (getSellPricePerItem cfg) _ mm 1 0 (by omega) ?_ ?_
      · simp only [Int.cast_zero, mul_zero]
        exact not_lt.mpr hB
      · simp only [Int.cast_zero, mul_zero, zero_add]
        exact not_le.mpr hBlt
    · simp only [Int.cast_one, mul_one]
      exact hBlt
    · simp only [Int.cast_one, mul_one, one_mul]
      rw [Int.floor_eq_zero_iff]
      exact Set.mem_Ico.mpr ⟨div_nonneg hB hs1.le, (div_lt_one hs1).mpr hBlt⟩

/-- C7 (amended): for quantity-independent constant price and margin, the
same budget and the same non-negative transport-cost function, the item
count returned under the `'client'` payer policy never exceeds the item
count returned under the `'purchaser'` payer policy. -/
theorem c7_client_le_purchaser_constant (cfgC cfgP : MarginSimulatorConfig)
    (p m : ℚ) (fuel1 fuel2 : ℕ) (rC rP : ℤ)
    (hpC : cfgC.purchaser.pricePerItem = .num p)
    (hmC : cfgC.purchaser.desiredMargin = some (.num m))
    (hbC : cfgC.client.buysAtPricePerItem = none)
    (hpP : cfgP.purchaser.pricePerItem = .num p)
    (hmP : cfgP.purchaser.desiredMargin = some (.num m))
    (hbP : cfgP.client.buysAtPricePerItem = none)
    (hbud : cfgC.client.budget = cfgP.client.budget)
    (hb0 : 0 ≤ cfgC.client.budget)
    (hTeq : cfgC.transport.costFn = cfgP.transport.costFn)
    (hT0 : ∀ n, 0 ≤ cfgC.transport.costFn n)
    (hpaysC : cfgC.transport.pays = .client)
    (hpaysP : cfgP.transport.pays = .purchaser)
    (hp0 : 0 < p) (hm1 : m < 1)
    (hrC : calculateNumberOfSellableItems cfgC fuel1 = some rC)
    (hrP : calculateNumberOfSellableItems cfgP fuel2 = some rP) :
    rC ≤ rP := by
  have hSC := getSellPricePerItem_const cfgC p m hpC hmC hbC
  have hSP := getSellPricePerItem_const cfgP p m hpP hmP hbP
  set s := p / (1 - m) with hsdef
  have hs : 0 < s := div_pos hp0 (by linarith)
  have hBC : 0 ≤ cfgC.client.budget * DOLLAR_EUR_MARGIN := budget_eur_nonneg cfgC hb0
  rw [solve_client_eq cfgC fuel1 hpaysC, hSC 1] at hrC
  have hseed : 0 ≤ ⌊cfgC.client.budget * DOLLAR_EUR_MARGIN / s⌋ :=
    Int.floor_nonneg.mpr (div_nonneg hBC hs.le)
  obtain ⟨hC0, hC1⟩ := clientLoop_sound (getSellPricePerItem cfgC)
    cfgC.transport.costFn _ hBC fuel1 0 _ rC hseed (fun h => h) hrC
  rw [solve_purchaser_eq cfgP fuel2 hpaysP] at hrP
  have hBP : 0 ≤ cfgP.client.budget * DOLLAR_EUR_MARGIN :=
    budget_eur_nonneg cfgP (hbud ▸ hb0)
  obtain ⟨hP0, hP1, hP2⟩ := purchaserLoop_sound (getSellPricePerItem cfgP) _ hBP
    fuel2 0 1 rP (by omega) (by omega) hrP
  simp only [hSP] at hP2
  rcases (by omega : rC ≤ 0 ∨ 1 ≤ rC) with h | h
  · omega
  · have hCle := hC1 h
    rw [hSC rC] at hCle
    have hTnn := hT0 rC
    have hBeq : cfgC.client.budget * DOLLAR_EUR_MARGIN =
        cfgP.client.budget * DOLLAR_EUR_MARGIN := by rw [hbud]
    have hchain : s * (rC : ℚ) < s * ((rP : ℚ) + 1) := by
      have hexp : s * ((rP : ℚ) + 1) = s * (rP : ℚ) + s := by ring
      rw [hexp]
      linarith
    have hcast : (rC : ℚ) < (rP : ℚ) + 1 := (mul_lt_mul_left hs).mp hchain
    have : rC < rP + 1 := by exact_mod_cast hcast
    omega

/-- C9: when neither `purchaser.desiredMargin` nor
`client.buysAtPricePerItem` is supplied, the margin used by the computation
is silently the constant `0.2` at every quantity. -/
theorem c9_default_margin (cfg : MarginSimulatorConfig) (n : ℤ)
    (hm : cfg.purchaser.desiredMargin = none)
    (hb : cfg.client.buysAtPricePerItem = none) :
    getDesiredMargin cfg n = 0.2 ∧ calculateMarginPercentage cfg n = 0.2 := by
  constructor <;>
    simp [getDesiredMargin, getClientBuyPrice, hm, hb, calculateMarginPercentage]

/-- C10: whenever the solver returns an item count of `0`,
`calculateTotalCostPerItem` returns exactly `0` (the zero guard fires before
the per-item shipping division, so the result is well-defined). -/
theorem c10_zero_count_zero_cost (cfg : MarginSimulatorConfig) (fuel : ℕ)
    (h : calculateNumberOfSellableItems cfg fuel = some 0) :
    calculateTotalCostPerItem cfg fuel = some 0 := by
  rw [calculateTotalCostPerItem, h]
  simp

/-! ## Concrete configurations used as counterexamples and witnesses -/

/-- Tiered price that drops from 10 to 5 at quantity 3; margin 0; no
transport; client pays; budget 25 dollars (22 euros). -/
def cfgC1x : MarginSimulatorConfig :=
  { client := { budget := 25, buysAtPricePerItem := none }
    purchaser := { pricePerItem := .fn (fun n => if 3 ≤ n then 5 else 10),
                   desiredMargin := some (.num 0) }
    transport := { costFn := fun _ => 0, pays := .client } }

theorem sellC1x : ∀ n : ℤ, getSellPricePerItem cfgC1x n = if 3 ≤ n then 5 else 10 := by
  intro n
  by_cases h : (3 : ℤ) ≤ n <;>
    simp [getSellPricePerItem, getClientBuyPrice, getDesiredMargin, getPurchasePrice,
      NumOrFn.eval, cfgC1x, h]

theorem evalC1x : calculateNumberOfSellableItems cfgC1x 5 = some 2 := by
  have hB : cfgC1x.client.budget * DOLLAR_EUR_MARGIN = 22 := by
    norm_num [cfgC1x, DOLLAR_EUR_MARGIN]
  have hseed : ⌊(22 : ℚ) / getSellPricePerItem cfgC1x 1⌋ = 2 := by
    rw [sellC1x]
    norm_num
  rw [solve_client_eq cfgC1x 5 rfl, hB, hseed]
  rw [show (5 : ℕ) = 4 + 1 from rfl,
    clientLoop_step_break _ _ _ 4 0 2 (by norm_num)
      (by simp only [sellC1x]; norm_num [cfgC1x])
      (by simp only [sellC1x]; norm_num [cfgC1x])]

/-- Tiered price that jumps from 1 to 10 at quantity 5; margin 0; no
transport; client pays; budget 50 dollars (44 euros). The refinement loop
cycles forever between estimates 4 and 5 on this input. -/
def cfgC2 : MarginSimulatorConfig :=
  { client := { budget := 50, buysAtPricePerItem := none }
    purchaser := { pricePerItem := .fn (fun n => if 5 ≤ n then 10 else 1),
                   desiredMargin := some (.num 0) }
    transport := { costFn := fun _ => 0, pays := .client } }

theorem sellC2 : ∀ n : ℤ, getSellPricePerItem cfgC2 n = if 5 ≤ n then 10 else 1 := by
  intro n
  by_cases h : (5 : ℤ) ≤ n <;>
    simp [getSellPricePerItem, getClientBuyPrice, getDesiredMargin, getPurchasePrice,
      NumOrFn.eval, cfgC2, h]

theorem cycleC2 : ∀ n,
    clientLoop (getSellPricePerItem cfgC2) cfgC2.transport.costFn 44 n 4 5 = none ∧
    clientLoop (getSellPricePerItem cfgC2) cfgC2.transport.costFn 44 n 5 4 = none := by
  intro n
  induction n with
  | zero => constructor <;> norm_num [clientLoop]
  | succ m ih =>
    constructor
    · rw [clientLoop_step_shrink _ _ _ m 4 5 4 (by norm_num)
        (by simp only [sellC2]; norm_num [cfgC2])
        (by simp only [sellC2]; norm_num [cfgC2])]
      exact ih.2
    · rw [clientLoop_step_grow _ _ _ m 5 4 (by norm_num)
        (by simp only [sellC2]; norm_num [cfgC2])
        (by simp only [sellC2]; norm_num [cfgC2])]
      rw [show (4 : ℤ) + 1 = 5 from rfl]
      exact ih.1

/-- Margin function equal to 2 (that is, at least 1) already at quantity 1;
unit price 1; no transport; client pays; budget 100 dollars. -/
def cfgC3 : MarginSimulatorConfig :=
  { client := { budget := 100, buysAtPricePerItem := none }
    purchaser := { pricePerItem := .num 1, desiredMargin := some (.num 2) }
    transport := { costFn := fun _ => 0, pays := .client } }

/-- Negative budget of -100 dollars; unit price 1; margin 0; no transport;
purchaser pays. -/
def cfgC8 : MarginSimulatorConfig :=
  { client := { budget := -100, buysAtPricePerItem := none }
    purchaser := { pricePerItem := .num 1, desiredMargin := some (.num 0) }
    transport := { costFn := fun _ => 0, pays := .purchaser } }

/-- C2: the refinement loop has no iteration cap and no convergence error.
On the non-monotonic tiered pricing of `cfgC2` (a step from 1 to 10 at
quantity 5, budget 50 dollars) the loop cycles between estimates 4 and 5
forever: the solver does not terminate for any amount of fuel, instead of
raising a non-convergence error after a bounded number of iterations. -/
theorem c2_no_cap_loops_forever :
    ∀ fuel, calculateNumberOfSellableItems cfgC2 fuel = none := by
  intro fuel
  have hB : cfgC2.client.budget * DOLLAR_EUR_MARGIN = 44 := by
    norm_num [cfgC2, DOLLAR_EUR_MARGIN]
  have hseed : ⌊(44 : ℚ) / getSellPricePerItem cfgC2 1⌋ = 44 := by
    rw [sellC2]
    norm_num
  rw [solve_client_eq cfgC2 fuel rfl, hB, hseed]
  cases fuel with
  | zero => norm_num [clientLoop]
  | succ m =>
    rw [clientLoop_step_shrink _ _ _ m 0 44 4 (by norm_num)
      (by simp only [sellC2]; norm_num [cfgC2])
      (by simp only [sellC2]; norm_num [cfgC2])]
    cases m with
    | zero => norm_num [clientLoop]
    | succ k =>
      rw [clientLoop_step_grow _ _ _ k 44 4 (by norm_num)
        (by simp only [sellC2]; norm_num [cfgC2])
        (by simp only [sellC2]; norm_num [cfgC2])]
      rw [show (4 : ℤ) + 1 = 5 from rfl]
      exact (cycleC2 k).1

/-- C3: a margin of 2 (at least 1) probed at quantity 1 raises no error:
the solver keeps computing with the negative sell price `1 / (1 - 2) = -1`
and returns -88 items for a budget of 100 dollars, instead of propagating a
fatal computation error. -/
theorem c3_margin_ge_one_not_fatal :
    (1 : ℚ) ≤ getDesiredMargin cfgC3 1 ∧
    ∀ fuel, calculateNumberOfSellableItems cfgC3 fuel = some (-88) := by
  constructor
  · norm_num [getDesiredMargin, cfgC3, NumOrFn.eval]
  · intro fuel
    have hB : cfgC3.client.budget * DOLLAR_EUR_MARGIN = 88 := by
      norm_num [cfgC3, DOLLAR_EUR_MARGIN]
    have hS1 : getSellPricePerItem cfgC3 1 = -1 := by
      rw [getSellPricePerItem_const cfgC3 1 2 rfl rfl rfl]
      norm_num
    have hseed : ⌊(88 : ℚ) / getSellPricePerItem cfgC3 1⌋ = -88 := by
      rw [hS1]
      norm_num
    rw [solve_client_eq cfgC3 fuel rfl, hB, hseed]
    exact clientLoop_exit _ _ _ 0 (-88) (Or.inr (by norm_num)) fuel

/-- C8: a negative budget is not rejected at the call boundary: with a
budget of -100 dollars (converted to -88 euros), unit price 1 and margin 0
under the purchaser-pays policy, the solver enters the loop and returns
-88 items instead of raising a negative-input error. -/
theorem c8_negative_budget_not_rejected :
    cfgC8.client.budget < 0 ∧
    calculateNumberOfSellableItems cfgC8 3 = some (-88) := by
  have hS : ∀ n, getSellPricePerItem cfgC8 n = 1 := by
    intro n
    rw [getSellPricePerItem_const cfgC8 1 0 rfl rfl rfl]
    norm_num
  constructor
  · norm_num [cfgC8]
  · have hB : cfgC8.client.budget * DOLLAR_EUR_MARGIN = -88 := by
      norm_num [cfgC8, DOLLAR_EUR_MARGIN]
    rw [solve_purchaser_eq cfgC8 3 rfl, hB]
    rw [show (3 : ℕ) = 2 + 1 from rfl,
      purchaserLoop_step_shrink _ _ 2 0 1 (-88) (by norm_num)
        (by simp only [hS]; norm_num)
        (by simp only [hS]; norm_num)]
    rw [show (2 : ℕ) = 1 + 1 from rfl,
      purchaserLoop_step_break _ _ 1 1 (-88) (by norm_num)
        (by simp only [hS]; norm_num)
        (by simp only [hS]; norm_num)]

/-- Unit price 1, margin 0, transport with a cliff (0 below 2 items, 1000
from 2 on), client pays, budget 1.25 dollars (1.1 euros). -/
def cfgC5a : MarginSimulatorConfig :=
  { client := { budget := 5 / 4, buysAtPricePerItem := none }
    purchaser := { pricePerItem := .num 1, desiredMargin := some (.num 0) }
    transport := { costFn := fun n => if 2 ≤ n then 1000 else 0, pays := .client } }

/-- Same configuration as `cfgC5a` but with the larger budget 12.5 dollars
(11 euros). -/
def cfgC5b : MarginSimulatorConfig :=
  { client := { budget := 25 / 2, buysAtPricePerItem := none }
    purchaser := { pricePerItem := .num 1, desiredMargin := some (.num 0) }
    transport := { costFn := fun n => if 2 ≤ n then 1000 else 0, pays := .client } }

theorem sellC5a : ∀ n : ℤ, getSellPricePerItem cfgC5a n = 1 := by
  intro n
  rw [getSellPricePerItem_const cfgC5a 1 0 rfl rfl rfl]
  norm_num

theorem sellC5b : ∀ n : ℤ, getSellPricePerItem cfgC5b n = 1 := by
  intro n
  rw [getSellPricePerItem_const cfgC5b 1 0 rfl rfl rfl]
  norm_num

theorem evalC5a : calculateNumberOfSellableItems cfgC5a 5 = some 1 := by
  have hB : cfgC5a.client.budget * DOLLAR_EUR_MARGIN = 11 / 10 := by
    norm_num [cfgC5a, DOLLAR_EUR_MARGIN]
  have hseed : ⌊(11 / 10 : ℚ) / getSellPricePerItem cfgC5a 1⌋ = 1 := by
    rw [sellC5a]
    norm_num
  rw [solve_client_eq cfgC5a 5 rfl, hB, hseed]
  rw [show (5 : ℕ) = 4 + 1 from rfl,
    clientLoop_step_break _ _ _ 4 0 1 (by norm_num)
      (by simp only [sellC5a]; norm_num [cfgC5a])
      (by simp only [sellC5a]; norm_num [cfgC5a])]

theorem evalC5b : calculateNumberOfSellableItems cfgC5b 5 = some 0 := by
  have hB : cfgC5b.client.budget * DOLLAR_EUR_MARGIN = 11 := by
    norm_num [cfgC5b, DOLLAR_EUR_MARGIN]
  have hseed : ⌊(11 : ℚ) / getSellPricePerItem cfgC5b 1⌋ = 11 := by
    rw [sellC5b]
    norm_num
  rw [solve_client_eq cfgC5b 5 rfl, hB, hseed]
  rw [show (5 : ℕ) = 4 + 1 from rfl,
    clientLoop_step_shrink _ _ _ 4 0 11 0 (by norm_num)
      (by simp only [sellC5b]; norm_num [cfgC5b])
      (by simp only [sellC5b]; norm_num [cfgC5b])]
  exact clientLoop_exit _ _ _ 11 0 (Or.inr (le_refl 0)) 4

/-- Unit price 1, margin 0, transport of 100 for a single item but 0 from 2
items on, client pays, budget 62.5 dollars (55 euros): below the single-unit
floor, yet 55 items are affordable. -/
def cfgC6x : MarginSimulatorConfig :=
  { client := { budget := 125 / 2, buysAtPricePerItem := none }
    purchaser := { pricePerItem := .num 1, desiredMargin := some (.num 0) }
    transport := { costFn := fun n => if n ≤ 1 then 100 else 0, pays := .client } }

theorem sellC6x : ∀ n : ℤ, getSellPricePerItem cfgC6x n = 1 := by
  intro n
  rw [getSellPricePerItem_const cfgC6x 1 0 rfl rfl rfl]
  norm_num

theorem evalC6x : calculateNumberOfSellableItems cfgC6x 5 = some 55 := by
  have hB : cfgC6x.client.budget * DOLLAR_EUR_MARGIN = 55 := by
    norm_num [cfgC6x, DOLLAR_EUR_MARGIN]
  have hseed : ⌊(55 : ℚ) / getSellPricePerItem cfgC6x 1⌋ = 55 := by
    rw [sellC6x]
    norm_num
  rw [solve_client_eq cfgC6x 5 rfl, hB, hseed]
  rw [show (5 : ℕ) = 4 + 1 from rfl,
    clientLoop_step_break _ _ _ 4 0 55 (by norm_num)
      (by simp only [sellC6x]; norm_num [cfgC6x])
      (by simp only [sellC6x]; norm_num [cfgC6x])]

/-- Tiered price of 100 at exactly quantity 2 and 1 elsewhere, margin 0, no
transport, budget 100 dollars (88 euros), client pays. -/
def cfgC7c : MarginSimulatorConfig :=
  { client := { budget := 100, buysAtPricePerItem := none }
    purchaser := { pricePerItem := .fn (fun n => if n = 2 then 100 else 1),
                   desiredMargin := some (.num 0) }
    transport := { costFn := fun _ => 0, pays := .client } }

/-- Same configuration as `cfgC7c` but with the purchaser paying
transport. -/
def cfgC7p : MarginSimulatorConfig :=
  { client := { budget := 100, buysAtPricePerItem := none }
    purchaser := { pricePerItem := .fn (fun n => if n = 2 then 100 else 1),
                   desiredMargin := some (.num 0) }
    transport := { costFn := fun _ => 0, pays := .purchaser } }

theorem sellC7c : ∀ n : ℤ, getSellPricePerItem cfgC7c n = if n = 2 then 100 else 1 := by
  intro n
  by_cases h : n = (2 : ℤ) <;>
    simp [getSellPricePerItem, getClientBuyPrice, getDesiredMargin, getPurchasePrice,
      NumOrFn.eval, cfgC7c, h]

theorem sellC7p : ∀ n : ℤ, getSellPricePerItem cfgC7p n = if n = 2 then 100 else 1 := by
  intro n
  by_cases h : n = (2 : ℤ) <;>
    simp [getSellPricePerItem, getClientBuyPrice, getDesiredMargin, getPurchasePrice,
      NumOrFn.eval, cfgC7p, h]

theorem evalC7c : calculateNumberOfSellableItems cfgC7c 5 = some 88 := by
  have hB : cfgC7c.client.budget * DOLLAR_EUR_MARGIN = 88 := by
    norm_num [cfgC7c, DOLLAR_EUR_MARGIN]
  have hseed : ⌊(88 : ℚ) / getSellPricePerItem cfgC7c 1⌋ = 88 := by
    rw [sellC7c]
    norm_num
  rw [solve_client_eq cfgC7c 5 rfl, hB, hseed]
  rw [show (5 : ℕ) = 4 + 1 from rfl,
    clientLoop_step_break _ _ _ 4 0 88 (by norm_num)
      (by simp only [sellC7c]; norm_num [cfgC7c])
      (by simp only [sellC7c]; norm_num [cfgC7c])]

theorem evalC7p : calculateNumberOfSellableItems cfgC7p 5 = some 1 := by
  have hB : cfgC7p.client.budget * DOLLAR_EUR_MARGIN = 88 := by
    norm_num [cfgC7p, DOLLAR_EUR_MARGIN]
  rw [solve_purchaser_eq cfgC7p 5 rfl, hB]
  rw [show (5 : ℕ) = 4 + 1 from rfl,
    purchaserLoop_step_break _ _ 4 0 1 (by norm_num)
      (by simp only [sellC7p]; norm_num)
      (by simp only [sellC7p]; norm_num)]

/-- Constant setting: budget 25 dollars (22 euros), unit price 10, margin 0,
constant transport 5, client pays. The solver returns 1. -/
def wcfgClient : MarginSimulatorConfig :=
  { client := { budget := 25, buysAtPricePerItem := none }
    purchaser := { pricePerItem := .num 10, desiredMargin := some (.num 0) }
    transport := { costFn := fun _ => 5, pays := .client } }

/-- As `wcfgClient` with the larger budget 50 dollars (44 euros). The solver
returns 3. -/
def wcfgClient50 : MarginSimulatorConfig :=
  { client := { budget := 50, buysAtPricePerItem := none }
    purchaser := { pricePerItem := .num 10, desiredMargin := some (.num 0) }
    transport := { costFn := fun _ => 5, pays := .client } }

/-- As `wcfgClient` but with the purchaser paying transport. The solver
returns 2. -/
def wcfgPurch : MarginSimulatorConfig :=
  { client := { budget := 25, buysAtPricePerItem := none }
    purchaser := { pricePerItem := .num 10, desiredMargin := some (.num 0) }
    transport := { costFn := fun _ => 5, pays := .purchaser } }

theorem sellWClient : ∀ n : ℤ, getSellPricePerItem wcfgClient n = 10 := by
  intro n
  rw [getSellPricePerItem_const wcfgClient 10 0 rfl rfl rfl]
  norm_num

theorem sellWClient50 : ∀ n : ℤ, getSellPricePerItem wcfgClient50 n = 10 := by
  intro n
  rw [getSellPricePerItem_const wcfgClient50 10 0 rfl rfl rfl]
  norm_num

theorem sellWPurch : ∀ n : ℤ, getSellPricePerItem wcfgPurch n = 10 := by
  intro n
  rw [getSellPricePerItem_const wcfgPurch 10 0 rfl rfl rfl]
  norm_num

theorem evalWClient : calculateNumberOfSellableItems wcfgClient 5 = some 1 := by
  have hB : wcfgClient.client.budget * DOLLAR_EUR_MARGIN = 22 := by
    norm_num [wcfgClient, DOLLAR_EUR_MARGIN]
  have hseed : ⌊(22 : ℚ) / getSellPricePerItem wcfgClient 1⌋ = 2 := by
    rw [sellWClient]
    norm_num
  rw [solve_client_eq wcfgClient 5 rfl, hB, hseed]
  rw [show (5 : ℕ) = 4 + 1 from rfl,
    clientLoop_step_shrink _ _ _ 4 0 2 1 (by norm_num)
      (by simp only [sellWClient]; norm_num [wcfgClient])
      (by simp only [sellWClient]; norm_num [wcfgClient])]
  rw [show (4 : ℕ) = 3 + 1 from rfl,
    clientLoop_step_break _ _ _ 3 2 1 (by norm_num)
      (by simp only [sellWClient]; norm_num [wcfgClient])
      (by simp only [sellWClient]; norm_num [wcfgClient])]

theorem evalWClient50 : calculateNumberOfSellableItems wcfgClient50 5 = some 3 := by
  have hB : wcfgClient50.client.budget * DOLLAR_EUR_MARGIN = 44 := by
    norm_num [wcfgClient50, DOLLAR_EUR_MARGIN]
  have hseed : ⌊(44 : ℚ) / getSellPricePerItem wcfgClient50 1⌋ = 4 := by
    rw [sellWClient50]
    norm_num
  rw [solve_client_eq wcfgClient50 5 rfl, hB, hseed]
  rw [show (5 : ℕ) = 4 + 1 from rfl,
    clientLoop_step_shrink _ _ _ 4 0 4 3 (by norm_num)
      (by simp only [sellWClient50]; norm_num [wcfgClient50])
      (by simp only [sellWClient50]; norm_num [wcfgClient50])]
  rw [show (4 : ℕ) = 3 + 1 from rfl,
    clientLoop_step_break _ _ _ 3 4 3 (by norm_num)
      (by simp only [sellWClient50]; norm_num [wcfgClient50])
      (by simp only [sellWClient50]; norm_num [wcfgClient50])]

theorem evalWPurch : calculateNumberOfSellableItems wcfgPurch 5 = some 2 := by
  have hB : wcfgPurch.client.budget * DOLLAR_EUR_MARGIN = 22 := by
    norm_num [wcfgPurch, DOLLAR_EUR_MARGIN]
  rw [solve_purchaser_eq wcfgPurch 5 rfl, hB]
  rw [show (5 : ℕ) = 4 + 1 from rfl,
    purchaserLoop_step_grow _ _ 4 0 1 (by norm_num)
      (by simp only [sellWPurch]; norm_num)
      (by simp only [sellWPurch]; norm_num)]
  rw [show (4 : ℕ) = 3 + 1 from rfl, show (1 : ℤ) + 1 = 2 from rfl,
    purchaserLoop_step_break _ _ 3 1 2 (by norm_num)
      (by simp only [sellWPurch]; norm_num)
      (by simp only [sellWPurch]; norm_num)]

/-- Constant setting under the purchaser-pays policy: budget 12.5 dollars
(11 euros), unit price 2, margin one half (sell price 4), transport 3. The
solver returns `⌊11 / 4⌋ = 2`. -/
def wcfgC4 : MarginSimulatorConfig :=
  { client := { budget := 25 / 2, buysAtPricePerItem := none }
    purchaser := { pricePerItem := .num 2, desiredMargin := some (.num (1 / 2)) }
    transport := { costFn := fun _ => 3, pays := .purchaser } }

theorem sellWC4 : ∀ n : ℤ, getSellPricePerItem wcfgC4 n = 4 := by
  intro n
  rw [getSellPricePerItem_const wcfgC4 2 (1 / 2) rfl rfl rfl]
  norm_num

theorem evalWC4 : calculateNumberOfSellableItems wcfgC4 4 = some 2 := by
  have hB : wcfgC4.client.budget * DOLLAR_EUR_MARGIN = 11 := by
    norm_num [wcfgC4, DOLLAR_EUR_MARGIN]
  rw [solve_purchaser_eq wcfgC4 4 rfl, hB]
  rw [show (4 : ℕ) = 3 + 1 from rfl,
    purchaserLoop_step_grow _ _ 3 0 1 (by norm_num)
      (by simp only [sellWC4]; norm_num)
      (by simp only [sellWC4]; norm_num)]
  rw [show (3 : ℕ) = 2 + 1 from rfl, show (1 : ℤ) + 1 = 2 from rfl,
    purchaserLoop_step_break _ _ 2 1 2 (by norm_num)
      (by simp only [sellWC4]; norm_num)
      (by simp only [sellWC4]; norm_num)]

/-- Constant setting below the single-unit floor: budget 10 dollars (8.8
euros), unit price 10, margin 0, transport 5, client pays. -/
def wcfgC6 : MarginSimulatorConfig :=
  { client := { budget := 10, buysAtPricePerItem := none }
    purchaser := { pricePerItem := .num 10, desiredMargin := some (.num 0) }
    transport := { costFn := fun _ => 5, pays := .client } }

theorem sellWC6 : ∀ n : ℤ, getSellPricePerItem wcfgC6 n = 10 := by
  intro n
  rw [getSellPricePerItem_const wcfgC6 10 0 rfl rfl rfl]
  norm_num

/-- Configuration with neither a desired margin nor a client buy price. -/
def wcfgC9 : MarginSimulatorConfig :=
  { client := { budget := 1, buysAtPricePerItem := none }
    purchaser := { pricePerItem := .num 1, desiredMargin := none }
    transport := { costFn := fun _ => 0, pays := .client } }

/-- Zero budget, unit price 1, margin 0, no transport, client pays. -/
def wcfgC10 : MarginSimulatorConfig :=
  { client := { budget := 0, buysAtPricePerItem := none }
    purchaser := { pricePerItem := .num 1, desiredMargin := some (.num 0) }
    transport := { costFn := fun _ => 0, pays := .client } }

theorem evalWC10 : calculateNumberOfSellableItems wcfgC10 3 = some 0 := by
  have hB : wcfgC10.client.budget * DOLLAR_EUR_MARGIN = 0 := by
    norm_num [wcfgC10, DOLLAR_EUR_MARGIN]
  have hseed : ⌊(0 : ℚ) / getSellPricePerItem wcfgC10 1⌋ = 0 := by
    norm_num
  rw [solve_client_eq wcfgC10 3 rfl, hB, hseed]
  exact clientLoop_exit _ _ _ 0 0 (Or.inl rfl) 3

/-! ## Counterexamples and witnesses -/

/-- C1 counterexample: on `cfgC1x` (budget 25 dollars, positive tiered unit
price dropping from 10 to 5 at quantity 3, margin 0, zero transport — all
solver preconditions hold) the solver returns 2, yet the total cost at
2 + 1 = 3 items is 15 ≤ 22 euros: the cost at the returned count plus one
does not exceed the converted budget, so the returned count is not
budget-maximal. -/
theorem c1_counterexample :
    calculateNumberOfSellableItems cfgC1x 5 = some 2 ∧
    getSellPricePerItem cfgC1x (2 + 1) * (((2 : ℤ) : ℚ) + 1) +
        cfgC1x.transport.costFn (2 + 1) ≤
      cfgC1x.client.budget * DOLLAR_EUR_MARGIN :=
  ⟨evalC1x, by simp only [sellC1x]; norm_num [cfgC1x, DOLLAR_EUR_MARGIN]⟩

/-- C1 witness: the amended theorem applied to the constant configuration
`wcfgClient` (budget 25 dollars, price 10, margin 0, transport 5), whose
solved count is 1. -/
theorem c1_budget_respect_constant_witness :
    getSellPricePerItem wcfgClient 1 * ((1 : ℤ) : ℚ) +
        (if wcfgClient.transport.pays = .client then wcfgClient.transport.costFn 1 else 0) ≤
      wcfgClient.client.budget * DOLLAR_EUR_MARGIN ∧
    wcfgClient.client.budget * DOLLAR_EUR_MARGIN <
      getSellPricePerItem wcfgClient (1 + 1) * (((1 : ℤ) : ℚ) + 1) +
        (if wcfgClient.transport.pays = .client then wcfgClient.transport.costFn (1 + 1) else 0) :=
  c1_budget_respect_constant wcfgClient 10 0 5 5 1 rfl rfl rfl (fun _ => rfl)
    (by norm_num [wcfgClient]) (by norm_num) (by norm_num) (by norm_num)
    (fun _ => by norm_num [wcfgClient, DOLLAR_EUR_MARGIN]) evalWClient

/-- C4 witness: the closed form applied to `wcfgC4` (budget 12.5 dollars,
price 2, margin one half, purchaser pays): the solver returns
`⌊11 / 4⌋ = 2`. -/
theorem c4_constant_closed_form_witness :
    (2 : ℤ) = ⌊wcfgC4.client.budget * DOLLAR_EUR_MARGIN / (2 / (1 - 1 / 2))⌋ ∧
    calculateNumberOfSellableItems wcfgC4
        (⌊wcfgC4.client.budget * DOLLAR_EUR_MARGIN / (2 / (1 - 1 / 2))⌋.toNat + 2) =
      some ⌊wcfgC4.client.budget * DOLLAR_EUR_MARGIN / (2 / (1 - 1 / 2))⌋ :=
  c4_constant_closed_form wcfgC4 2 (1 / 2) 3 4 2 rfl rfl rfl (fun _ => rfl) rfl
    (by norm_num [wcfgC4]) (by norm_num) (by norm_num) evalWC4

/-- C5 counterexample: `cfgC5a` and `cfgC5b` share pricing, margin and
transport functions and the payer policy, the budget grows from 1.25 to
12.5 dollars, yet the solved count drops from 1 to 0. -/
theorem c5_counterexample :
    cfgC5a.client.budget ≤ cfgC5b.client.budget ∧
    calculateNumberOfSellableItems cfgC5a 5 = some 1 ∧
    calculateNumberOfSellableItems cfgC5b 5 = some 0 ∧
    ¬ ((1 : ℤ) ≤ 0) :=
  ⟨by norm_num [cfgC5a, cfgC5b], evalC5a, evalC5b, by norm_num⟩

/-- C5 witness: the amended monotonicity applied to the constant
configurations `wcfgClient` (budget 25, count 1) and `wcfgClient50`
(budget 50, count 3). -/
theorem c5_budget_monotone_constant_witness :
    calculateNumberOfSellableItems wcfgClient 5 = some 1 ∧
    calculateNumberOfSellableItems wcfgClient50 5 = some 3 ∧
    (1 : ℤ) ≤ 3 :=
  ⟨evalWClient, evalWClient50,
    c5_budget_monotone_constant wcfgClient wcfgClient50 10 0 5 5 5 1 3
      rfl rfl rfl (fun _ => rfl) rfl rfl rfl (fun _ => rfl) rfl
      (by norm_num [wcfgClient]) (by norm_num [wcfgClient, wcfgClient50])
      (by norm_num) (by norm_num) (by norm_num)
      evalWClient evalWClient50⟩

/-- C6 counterexample: on `cfgC6x` the converted budget 55 is below the
single-unit floor `sellPrice(1) + transportCost(1) = 101` under the
client-pays policy, yet the solver returns 55, not 0 (the transport cost
falls from 100 to 0 at two items). -/
theorem c6_counterexample :
    0 ≤ cfgC6x.client.budget ∧
    cfgC6x.client.budget * DOLLAR_EUR_MARGIN <
      getSellPricePerItem cfgC6x 1 + cfgC6x.transport.costFn 1 ∧
    calculateNumberOfSellableItems cfgC6x 5 = some 55 :=
  ⟨by norm_num [cfgC6x],
   by simp only [sellC6x]; norm_num [cfgC6x, DOLLAR_EUR_MARGIN], evalC6x⟩

/-- C6 witness: the amended theorem applied to `wcfgC6` (budget 10 dollars,
8.8 euros, below the floor 10 + 5): the solver returns 0. -/
theorem c6_below_floor_zero_witness :
    calculateNumberOfSellableItems wcfgC6 5 = some 0 := by
  refine c6_below_floor_zero wcfgC6 5 (by norm_num [wcfgC6]) ?_ ?_ ?_ ?_
  · rw [sellWC6]
    norm_num
  · intro h
    exact absurd h (by decide)
  · intro _
    refine ⟨?_, ?_⟩
    · rw [sellWC6]
      norm_num [wcfgC6, DOLLAR_EUR_MARGIN]
    · intro n hn
      refine ⟨?_, le_refl _⟩
      simp only [sellWC6]
      norm_num
  · have hseed : ⌊wcfgC6.client.budget * DOLLAR_EUR_MARGIN /
        getSellPricePerItem wcfgC6 1⌋ = 0 := by
      rw [sellWC6]
      norm_num [wcfgC6, DOLLAR_EUR_MARGIN]
    rw [hseed]
    norm_num

/-- C7 counterexample: identical budget, pricing and margin functions and an
everywhere-zero (hence non-negative) transport function, yet the client-pays
solve returns 88 while the purchaser-pays solve returns 1: the client-pays
count exceeds the purchaser-pays count. -/
theorem c7_counterexample :
    calculateNumberOfSellableItems cfgC7c 5 = some 88 ∧
    calculateNumberOfSellableItems cfgC7p 5 = some 1 ∧
    ¬ ((88 : ℤ) ≤ 1) :=
  ⟨evalC7c, evalC7p, by norm_num⟩

/-- C7 witness: the amended theorem applied to the constant configurations
`wcfgClient` (client pays, count 1) and `wcfgPurch` (purchaser pays,
count 2). -/
theorem c7_client_le_purchaser_constant_witness :
    calculateNumberOfSellableItems wcfgClient 5 = some 1 ∧
    calculateNumberOfSellableItems wcfgPurch 5 = some 2 ∧
    (1 : ℤ) ≤ 2 :=
  ⟨evalWClient, evalWPurch,
    c7_client_le_purchaser_constant wcfgClient wcfgPurch 10 0 5 5 1 2
      rfl rfl rfl rfl rfl rfl rfl (by norm_num [wcfgClient]) rfl
      (fun n => by norm_num [wcfgClient]) rfl rfl (by norm_num) (by norm_num)
      evalWClient evalWPurch⟩

/-- C9 witness: a configuration with neither a desired margin nor a client
buy price uses margin 0.2 at quantity 7. -/
theorem c9_default_margin_witness :
    getDesiredMargin wcfgC9 7 = 0.2 ∧ calculateMarginPercentage wcfgC9 7 = 0.2 :=
  c9_default_margin wcfgC9 7 rfl rfl

/-- C10 witness: on the zero-budget configuration `wcfgC10` the solver
returns 0 items and the total cost per item is exactly 0. -/
theorem c10_zero_count_zero_cost_witness :
    calculateTotalCostPerItem wcfgC10 3 = some 0 :=
  c10_zero_count_zero_cost wcfgC10 3 evalWC10

end PriceMarginSimulator
